import Mathlib

/-!
# IOC-golang: the `IOCProtocol` RPC transport

A shallow embedding of
`extension/autowire/rpc/protocol/protocol_impl/iocgo.go`:

* `IOCProtocol.Invoke`  (client path, two-phase decode of the reply list),
* `IOCProtocol.Export`  (server path, one POST handler per method),
* `getSingletonGinEngion` (the process-wide gin engine).

The Go standard library and third-party calls made by these functions
(`encoding/json`, `fmt`, `strconv`, `net/http`, gin, the tracer) are not part
of the repository.  Their behaviour is modelled in the first half of the file,
each definition naming the Go function it follows; the functions of the
repository come after and follow the source statement by statement.
-/

set_option exponentiation.threshold 2000

namespace IOCGolang

/-! ## JSON documents -/

/-- A JSON document as `encoding/json` sees it.  A number keeps the text of its
literal: Go converts it only when it is stored (`strconv.ParseInt` for an
integer target, `strconv.ParseFloat` for an `interface{}` target). -/
inductive JSON where
  | null
  | bool (b : Bool)
  | num (lit : String)
  | str (s : String)
  | arr (elems : List JSON)
  | obj (members : List (String × JSON))
  deriving Repr, Inhabited

/-! ## Go error values -/

/-- The error values that flow through `Invoke`. -/
inductive GoError where
  /-- A `*json.SyntaxError`; the text is supplied by the scanner. -/
  | jsonInvalid (msg : String)
  /-- A `*json.UnmarshalTypeError` with fields `Value` and `Type`, outside any struct. -/
  | unmarshalType (value goType : String)
  /-- An `*errors.errorString`, what `fmt.Errorf` returns when no `%w` operand is wrapped. -/
  | errorString (s : String)
  /-- Any error returned by `net/http` (`NewRequestWithContext`, `Client.Do`). -/
  | transport (msg : String)
  deriving DecidableEq, Repr, Inhabited

/-- The method `Error()` of each error value. -/
def GoError.Error : GoError → String
  | .jsonInvalid msg => msg
  | .unmarshalType value goType =>
      "json: cannot unmarshal " ++ value ++ " into Go value of type " ++ goType
  | .errorString s => s
  | .transport msg => msg

/-! ## `strconv` on number literals -/

/-- Value of a decimal digit. -/
def digitVal (c : Char) : Option Nat :=
  if c.isDigit then some (c.toNat - 48) else none

/-- Reads a run of decimal digits; `none` when a character is not a digit. -/
def parseDigits : List Char → Nat → Option Nat
  | [], acc => some acc
  | c :: cs, acc =>
    match digitVal c with
    | some d => parseDigits cs (acc * 10 + d)
    | none => none

/-- Magnitude check of `strconv.ParseInt(s, 10, 64)` after the sign is removed. -/
def signedInt64 (neg : Bool) (ds : List Char) : Option Int :=
  match ds with
  | [] => none
  | _ :: _ =>
    match parseDigits ds 0 with
    | none => none
    | some n =>
      if neg then (if n ≤ 2 ^ 63 then some (-(n : Int)) else none)
      else (if n < 2 ^ 63 then some (n : Int) else none)

/-- Model of `strconv.ParseInt(lit, 10, 64)`: an optional sign, then one or more digits,
the value within the range of `int64`; `none` stands for the returned error. -/
def parseInt64 (lit : String) : Option Int :=
  match lit.data with
  | [] => none
  | '-' :: ds => signedInt64 true ds
  | '+' :: ds => signedInt64 false ds
  | ds => signedInt64 false ds

/-- Splits a run of leading digits off a character list. -/
def spanDigits : List Char → List Char × List Char
  | [] => ([], [])
  | c :: cs =>
    if c.isDigit then
      let r := spanDigits cs
      (c :: r.1, r.2)
    else ([], c :: cs)

/-- Value of a list of digit characters (non-digits count as zero). -/
def digitsToNat (ds : List Char) : Nat :=
  ds.foldl (fun acc c => acc * 10 + (c.toNat - 48)) 0

/-- The smallest magnitude that `strconv.ParseFloat(_, 64)` rounds to infinity:
half-way between the largest finite `float64` and `2^1024`. -/
def float64Overflow : Nat := 2 ^ 1024 - 2 ^ 970

/-- Whether `mant * 10^(e - shift)` stays below the overflow threshold. -/
def decimalFits (mant : Nat) (e : Int) (shift : Nat) : Bool :=
  let k := e - (shift : Int)
  if 0 ≤ k then decide (mant * 10 ^ k.toNat < float64Overflow)
  else decide (mant < float64Overflow * 10 ^ (-k).toNat)

/-- Exponent part of a number literal: `e`/`E`, an optional sign, one or more digits,
and nothing after. -/
def parseExponent (cs : List Char) : Option Int :=
  match cs with
  | [] => some 0
  | c :: rest =>
    if c = 'e' ∨ c = 'E' then
      match rest with
      | '-' :: ds => if ds = [] then none else (parseDigits ds 0).map (fun n => -(n : Int))
      | '+' :: ds => if ds = [] then none else (parseDigits ds 0).map (fun n => (n : Int))
      | ds => if ds = [] then none else (parseDigits ds 0).map (fun n => (n : Int))
    else none

/-- Model of `strconv.ParseFloat(lit, 64)` returning no error, on literals of JSON's number
grammar (`-? digits (. digits)? ([eE] [+-]? digits)?`): the only error there is
`ErrRange`, raised when the exact decimal value rounds to an infinity.  Text
outside that grammar is never handed to `ParseFloat` by the decoder and counts as
a failure here. -/
def fitsFloat64 (lit : String) : Bool :=
  let cs := match lit.data with
    | '-' :: r => r
    | r => r
  let ip := spanDigits cs
  if ip.1 = [] then false
  else
    match ip.2 with
    | '.' :: r =>
      let fp := spanDigits r
      if fp.1 = [] then false
      else
        match parseExponent fp.2 with
        | none => false
        | some e => decimalFits (digitsToNat (ip.1 ++ fp.1)) e fp.1.length
    | r =>
      match parseExponent r with
      | none => false
      | some e => decimalFits (digitsToNat ip.1) e 0

/-! ## `fmt.Errorf` -/

/-- Go's `parsenum` (package `fmt`): reads a decimal number; a number above `10^6` gives up and
jumps to the end of the format. -/
def parsenum : List Char → Nat → Bool → Nat × Bool × List Char
  | [], num, isnum => (num, isnum, [])
  | c :: cs, num, isnum =>
    if c.isDigit then
      if num > 1000000 then (0, false, [])
      else parsenum cs (num * 10 + (c.toNat - 48)) true
    else (num, isnum, c :: cs)

/-- Go's `parseArgNumber` applied to a format that starts with `[`: the rest of the format after the
bracketed index and whether the index was a number.  Without a closing bracket
(or with fewer than three characters) only the `[` is consumed. -/
def parseArgNumber (cs : List Char) : List Char × Bool :=
  if cs.length < 3 then (cs.drop 1, false)
  else
    let body := (cs.drop 1).takeWhile (fun c => c ≠ ']')
    let after := (cs.drop 1).dropWhile (fun c => c ≠ ']')
    match after with
    | [] => (cs.drop 1, false)
    | _ :: rest =>
      let r := parsenum body 0 false
      (rest, r.2.1 && r.2.2.isEmpty)

/-- Go's `(*pp).argNumber` when the call has no operands: the rest of the format, whether an
index was found, and whether `goodArgNum` has been cleared (with no operand every
explicit index is out of range). -/
def argNumber (cs : List Char) : List Char × Bool × Bool :=
  match cs with
  | '[' :: _ =>
    let r := parseArgNumber cs
    (r.1, r.2, true)
  | _ => (cs, false, false)

/-- Skips the flag characters `#`, `0`, `+`, `-` and space that follow a `%`. -/
def skipFlags : List Char → List Char
  | [] => []
  | c :: cs =>
    if c = '#' ∨ c = '0' ∨ c = '+' ∨ c = '-' ∨ c = ' ' then skipFlags cs else c :: cs

/-- One verb of `(*pp).doPrintf` with no operands, started after the `%`: the text written and
the rest of the format.  `%%` writes a percent sign; a `*` width or precision
writes `%!(BADWIDTH)` / `%!(BADPREC)`; a format that ends inside the verb writes
`%!(NOVERB)`; any other verb `v` writes `%!v(BADINDEX)` after a bad index and
`%!v(MISSING)` otherwise.  A precision is read only when a character follows the
dot (`i+1 < end`): a dot that ends the format is itself the verb. -/
def printVerb (cs0 : List Char) : List Char × List Char :=
  let cs1 := skipFlags cs0
  -- explicit argument index
  let a1 := argNumber cs1
  let cs2 := a1.1
  let afterIndex1 := a1.2.1
  let bad1 := a1.2.2
  -- width
  let w : List Char × List Char × Bool × Bool :=
    match cs2 with
    | '*' :: r => ("%!(BADWIDTH)".data, r, false, bad1)
    | _ =>
      let r := parsenum cs2 0 false
      ([], r.2.2, afterIndex1, bad1 || (afterIndex1 && r.2.1))
  let out3 := w.1
  let cs3 := w.2.1
  let afterIndex3 := w.2.2.1
  let bad3 := w.2.2.2
  -- precision
  let p : List Char × List Char × Bool × Bool :=
    match cs3 with
    | '.' :: c :: r0 =>
      let r := c :: r0
      let bad := bad3 || afterIndex3
      let a := argNumber r
      match a.1 with
      | '*' :: r2 => (out3 ++ "%!(BADPREC)".data, r2, false, bad || a.2.2)
      | _ =>
        let n := parsenum a.1 0 false
        (out3, n.2.2, a.2.1, bad || a.2.2)
    | _ => (out3, cs3, afterIndex3, bad3)
  let out4 := p.1
  let cs4 := p.2.1
  let afterIndex4 := p.2.2.1
  let bad4 := p.2.2.2
  let a5 := if afterIndex4 then (cs4, false, false) else argNumber cs4
  let cs5 := a5.1
  let bad5 := bad4 || a5.2.2
  match cs5 with
  | [] => (out4 ++ "%!(NOVERB)".data, [])
  | verb :: rest =>
    if verb = '%' then (out4 ++ ['%'], rest)
    else if bad5 then (out4 ++ "%!".data ++ [verb] ++ "(BADINDEX)".data, rest)
    else (out4 ++ "%!".data ++ [verb] ++ "(MISSING)".data, rest)

/-- The loop of `(*pp).doPrintf(format, nil)`: text up to a `%` is copied, then one verb
is processed.  The fuel bounds the number of characters and verbs visited;
`format.length + 1` is always enough. -/
def doPrintf : Nat → List Char → List Char
  | 0, _ => []
  | _ + 1, [] => []
  | fuel + 1, c :: cs =>
    if c = '%' then
      let r := printVerb cs
      r.1 ++ doPrintf fuel r.2
    else c :: doPrintf fuel cs

/-- Model of `fmt.Sprintf(format)` with no operands.  `fmt.Errorf(format)` with no operands
returns an `*errors.errorString` holding this text. -/
def Sprintf0 (format : String) : String :=
  String.mk (doPrintf (format.length + 1) format.data)

/-! ## A scanner for JSON text

`json.Unmarshal` first validates the whole input (`checkValid`) and only then
stores values.  The functions of the repository below take the scanner as a
parameter of their environment; `scanJSON` is a concrete one, used to run them
on response bodies given as text.  It follows the grammar of `encoding/json`
(RFC 8259); it does not reproduce the wording or the offset of Go's syntax-error
messages. -/

/-- Skips JSON white space (space, tab, line feed, carriage return). -/
def skipWS : List Char → List Char
  | [] => []
  | c :: cs => if c = ' ' ∨ c = '\t' ∨ c = '\n' ∨ c = '\r' then skipWS cs else c :: cs

/-- Value of a hexadecimal digit. -/
def hexVal (c : Char) : Option Nat :=
  if c.isDigit then some (c.toNat - 48)
  else if 'a' ≤ c ∧ c ≤ 'f' then some (c.toNat - 87)
  else if 'A' ≤ c ∧ c ≤ 'F' then some (c.toNat - 55)
  else none

/-- Go's `getu4` without the leading backslash-u: four hexadecimal digits. -/
def hex4 : List Char → Option (Nat × List Char)
  | a :: b :: c :: d :: rest =>
    match hexVal a, hexVal b, hexVal c, hexVal d with
    | some x, some y, some z, some w => some (((x * 16 + y) * 16 + z) * 16 + w, rest)
    | _, _, _, _ => none
  | _ => none

/-- The rune written for a `\u` escape whose value is `hi`, given the text after it
(`unquoteBytes`): a high surrogate followed by an escaped low surrogate combines with it;
any other surrogate becomes U+FFFD. -/
def decodeEscape (hi : Nat) (rest : List Char) : Char × List Char :=
  if 0xD800 ≤ hi ∧ hi < 0xE000 then
    match rest with
    | '\\' :: 'u' :: r =>
      match hex4 r with
      | some (lo, r2) =>
        if hi < 0xDC00 ∧ 0xDC00 ≤ lo ∧ lo < 0xE000 then
          (Char.ofNat (0x10000 + (hi - 0xD800) * 0x400 + (lo - 0xDC00)), r2)
        else (Char.ofNat 0xFFFD, rest)
      | none => (Char.ofNat 0xFFFD, rest)
    | _ => (Char.ofNat 0xFFFD, rest)
  else (Char.ofNat hi, rest)

/-- Scans the inside of a string literal up to the closing quote and unquotes it. -/
def scanString : Nat → List Char → List Char → Option (String × List Char)
  | 0, _, _ => none
  | _ + 1, [], _ => none
  | fuel + 1, c :: cs, acc =>
    if c = '"' then some (String.mk acc.reverse, cs)
    else if c = '\\' then
      match cs with
      | '"' :: r => scanString fuel r ('"' :: acc)
      | '\\' :: r => scanString fuel r ('\\' :: acc)
      | '/' :: r => scanString fuel r ('/' :: acc)
      | 'b' :: r => scanString fuel r (Char.ofNat 8 :: acc)
      | 'f' :: r => scanString fuel r (Char.ofNat 12 :: acc)
      | 'n' :: r => scanString fuel r ('\n' :: acc)
      | 'r' :: r => scanString fuel r ('\r' :: acc)
      | 't' :: r => scanString fuel r ('\t' :: acc)
      | 'u' :: r =>
        match hex4 r with
        | some (hi, r2) =>
          let d := decodeEscape hi r2
          scanString fuel d.2 (d.1 :: acc)
        | none => none
      | _ => none
    else if c.toNat < 32 then none
    else scanString fuel cs (c :: acc)

/-- Scans a number literal (the sign already removed from `cs`), returning its text. -/
def scanNumber (sign : List Char) (cs : List Char) : Option (String × List Char) :=
  let ip := spanDigits cs
  let intOk : Bool :=
    match ip.1 with
    | [] => false
    | '0' :: more => more.isEmpty
    | _ => true
  if !intOk then none
  else
    let fr : Option (List Char × List Char) :=
      match ip.2 with
      | '.' :: r =>
        let fp := spanDigits r
        if fp.1.isEmpty then none else some ('.' :: fp.1, fp.2)
      | r => some ([], r)
    match fr with
    | none => none
    | some (ftxt, r1) =>
      let ex : Option (List Char × List Char) :=
        match r1 with
        | e :: r =>
          if e = 'e' ∨ e = 'E' then
            match r with
            | s :: r2 =>
              if s = '+' ∨ s = '-' then
                let ep := spanDigits r2
                if ep.1.isEmpty then none else some (e :: s :: ep.1, ep.2)
              else
                let ep := spanDigits r
                if ep.1.isEmpty then none else some (e :: ep.1, ep.2)
            | [] => none
          else some ([], r1)
        | [] => some ([], [])
      match ex with
      | none => none
      | some (etxt, r2) => some (String.mk (sign ++ ip.1 ++ ftxt ++ etxt), r2)

mutual
/-- Scans one JSON value after optional white space. -/
def scanValue : Nat → List Char → Option (JSON × List Char)
  | 0, _ => none
  | fuel + 1, cs =>
    match skipWS cs with
    | [] => none
    | 'n' :: 'u' :: 'l' :: 'l' :: r => some (.null, r)
    | 't' :: 'r' :: 'u' :: 'e' :: r => some (.bool true, r)
    | 'f' :: 'a' :: 'l' :: 's' :: 'e' :: r => some (.bool false, r)
    | '"' :: r =>
      match scanString (r.length + 1) r [] with
      | some (s, r2) => some (.str s, r2)
      | none => none
    | '[' :: r =>
      match skipWS r with
      | ']' :: r2 => some (.arr [], r2)
      | _ =>
        match scanElems fuel r with
        | some (vs, r2) => some (.arr vs, r2)
        | none => none
    | '\x7b' :: r =>
      match skipWS r with
      | '\x7d' :: r2 => some (.obj [], r2)
      | _ =>
        match scanMembers fuel r with
        | some (kvs, r2) => some (.obj kvs, r2)
        | none => none
    | '-' :: r =>
      match scanNumber ['-'] r with
      | some (lit, r2) => some (.num lit, r2)
      | none => none
    | c :: r =>
      match scanNumber [] (c :: r) with
      | some (lit, r2) => some (.num lit, r2)
      | none => none
/-- Scans the elements of a non-empty array up to the closing bracket. -/
def scanElems : Nat → List Char → Option (List JSON × List Char)
  | 0, _ => none
  | fuel + 1, cs =>
    match scanValue fuel cs with
    | none => none
    | some (v, r) =>
      match skipWS r with
      | ',' :: r2 =>
        match scanElems fuel r2 with
        | some (vs, r3) => some (v :: vs, r3)
        | none => none
      | ']' :: r2 => some ([v], r2)
      | _ => none
/-- Scans the members of a non-empty object up to the closing brace. -/
def scanMembers : Nat → List Char → Option (List (String × JSON) × List Char)
  | 0, _ => none
  | fuel + 1, cs =>
    match skipWS cs with
    | '"' :: r =>
      match scanString (r.length + 1) r [] with
      | none => none
      | some (k, r1) =>
        match skipWS r1 with
        | ':' :: r2 =>
          match scanValue fuel r2 with
          | none => none
          | some (v, r3) =>
            match skipWS r3 with
            | ',' :: r4 =>
              match scanMembers fuel r4 with
              | some (kvs, r5) => some ((k, v) :: kvs, r5)
              | none => none
            | '\x7d' :: r4 => some ([(k, v)], r4)
            | _ => none
        | _ => none
    | _ => none
end

/-- A concrete scanner: one JSON value surrounded by optional white space, nothing else.
The fuel `2 * length + 2` covers every chain of nested calls, each of which
consumes a character at least every second step. -/
def scanJSON (data : String) : Except String JSON :=
  match scanValue (2 * data.length + 2) data.data with
  | some (v, rest) =>
    if (skipWS rest).isEmpty then .ok v else .error "invalid character after top-level value"
  | none => .error "invalid JSON input"

/-! ## The reply list and `json.Unmarshal` into it -/

/-- One element of the reply list `*[]interface{}`: the dynamic value held by an
`interface{}` slot.  Pointers are represented by the current content of the
variable they point to.

* `iface v`: a value that is not a pointer, as the decoder produces for an
  `interface{}` target: `nil` (`iface .null`), `bool`, `float64`, `string`,
  `[]interface{}`, `map[string]interface{}`;
* `strPtr`, `intPtr`, `boolPtr`: a non-nil `*string`, `*int`, `*bool`;
* `errPtr cur`: a non-nil `*error`; the error variable holds `nil` (`none`) or an
  `*errors.errorString` with the given text;
* `errVal s`: an `*errors.errorString` stored in the slot itself. -/
inductive Slot where
  | iface (v : JSON)
  | strPtr (cur : String)
  | intPtr (cur : Int)
  | boolPtr (cur : Bool)
  | errPtr (cur : Option String)
  | errVal (s : String)
  deriving Repr, Inhabited

/-- The type assertion `x.(*error)` of `Invoke` (comma-ok form). -/
def Slot.isErrorPtr : Slot → Bool
  | .errPtr _ => true
  | _ => false

/-- The type assertion `x.(string)`: the string held, when the slot holds a string. -/
def Slot.asString : Slot → Option String
  | .iface (.str s) => some s
  | _ => none

/-- Dynamic type of the Go value the decoder builds for an `interface{}` target. -/
def JSON.goTypeName : JSON → String
  | .null => "nil"
  | .bool _ => "bool"
  | .num _ => "float64"
  | .str _ => "string"
  | .arr _ => "[]interface {}"
  | .obj _ => "map[string]interface {}"

/-- Dynamic type of the value a slot holds, as a failed type assertion prints it. -/
def Slot.typeName : Slot → String
  | .iface v => v.goTypeName
  | .strPtr _ => "*string"
  | .intPtr _ => "*int"
  | .boolPtr _ => "*bool"
  | .errPtr _ => "*error"
  | .errVal _ => "*errors.errorString"

/-- The `Value` field of an `UnmarshalTypeError` raised for a JSON value of each kind. -/
def JSON.kindName : JSON → String
  | .null => "null"
  | .bool _ => "bool"
  | .num _ => "number"
  | .str _ => "string"
  | .arr _ => "array"
  | .obj _ => "object"

/-- First saved error wins (`decodeState.saveError`). -/
def firstErr (a b : Option GoError) : Option GoError :=
  match a with
  | some e => some e
  | none => b

mutual
/-- Go's `decodeState.valueInterface`: the value built for an `interface{}` target and the first
error saved on the way.  A number that `ParseFloat` rejects saves an error and
yields `nil` in its place. -/
def toIface : JSON → JSON × Option GoError
  | .null => (.null, none)
  | .bool b => (.bool b, none)
  | .str s => (.str s, none)
  | .num lit =>
    if fitsFloat64 lit then (.num lit, none)
    else (.null, some (.unmarshalType ("number " ++ lit) "float64"))
  | .arr xs =>
    let r := toIfaceList xs
    (.arr r.1, r.2)
  | .obj kvs =>
    let r := toIfaceMembers kvs
    (.obj r.1, r.2)
/-- Elements of `arrayInterface`. -/
def toIfaceList : List JSON → List JSON × Option GoError
  | [] => ([], none)
  | x :: xs =>
    let a := toIface x
    let b := toIfaceList xs
    (a.1 :: b.1, firstErr a.2 b.2)
/-- Members of `objectInterface`. -/
def toIfaceMembers : List (String × JSON) → List (String × JSON) × Option GoError
  | [] => ([], none)
  | (k, x) :: xs =>
    let a := toIface x
    let b := toIfaceMembers xs
    ((k, a.1) :: b.1, firstErr a.2 b.2)
end

/-- Storing a value other than `null` into a target of struct type `errors.errorString`
(reached through an `*errors.errorString`): an object is accepted and changes
nothing, since the struct has no exported field; anything else is a type error. -/
def storeErrorString (j : JSON) : Option GoError :=
  match j with
  | .obj _ => none
  | other => some (.unmarshalType other.kindName "errors.errorString")

/-- Go's `decodeState.value` on one element `v.Index(i)` of the reply list: the slot afterwards and
the error saved, if any.

`null` makes the slot itself `nil` whatever it held (`indirect` with
`decodingNull` stops at the settable interface element).  Any other value is
stored through a pointer the slot holds, or replaces the content of a slot that
holds no pointer. -/
def store (j : JSON) (s : Slot) : Slot × Option GoError :=
  match j with
  | .null => (.iface .null, none)
  | _ =>
    match s with
    | .iface old =>
      match j with
      | .num lit =>
        if fitsFloat64 lit then (.iface (.num lit), none)
        else (.iface old, some (.unmarshalType ("number " ++ lit) "float64"))
      | other =>
        let r := toIface other
        (.iface r.1, r.2)
    | .strPtr cur =>
      match j with
      | .str v => (.strPtr v, none)
      | other => (.strPtr cur, some (.unmarshalType other.kindName "string"))
    | .intPtr cur =>
      match j with
      | .num lit =>
        match parseInt64 lit with
        | some n => (.intPtr n, none)
        | none => (.intPtr cur, some (.unmarshalType ("number " ++ lit) "int"))
      | other => (.intPtr cur, some (.unmarshalType other.kindName "int"))
    | .boolPtr cur =>
      match j with
      | .bool b => (.boolPtr b, none)
      | other => (.boolPtr cur, some (.unmarshalType other.kindName "bool"))
    | .errPtr none =>
      match j with
      | .num lit =>
        if fitsFloat64 lit then (.errPtr none, some (.unmarshalType "number" "error"))
        else (.errPtr none, some (.unmarshalType ("number " ++ lit) "float64"))
      | other => (.errPtr none, some (.unmarshalType other.kindName "error"))
    | .errPtr (some cur) => (.errPtr (some cur), storeErrorString j)
    | .errVal cur => (.errVal cur, storeErrorString j)

/-- The loop of `decodeState.array` over a slice target: element `i` of the JSON array is
stored into slot `i`; past the end of the slice a fresh `nil` slot is appended; when
the array is shorter the slice is cut to the number of elements read (`SetLen`).
Slots past the current length are taken to be fresh (capacity equals length). -/
def storeElems : List JSON → List Slot → List Slot × Option GoError
  | [], _ => ([], none)
  | j :: js, [] =>
    let a := store j (.iface .null)
    let r := storeElems js []
    (a.1 :: r.1, firstErr a.2 r.2)
  | j :: js, s :: ss =>
    let a := store j s
    let r := storeElems js ss
    (a.1 :: r.1, firstErr a.2 r.2)

/-- Model of `json.Unmarshal(data, replyList)` with `replyList : *[]interface{}`: the reply list
afterwards and the returned error.  Invalid text is rejected before anything is
stored; a top-level `null` sets the slice to `nil`; any other value that is not an
array is a type error and leaves the list as it was. -/
def Unmarshal (scan : String → Except String JSON) (data : String) (reply : List Slot) :
    List Slot × Option GoError :=
  match scan data with
  | .error msg => (reply, some (.jsonInvalid msg))
  | .ok (.arr js) => storeElems js reply
  | .ok .null => ([], none)
  | .ok other => (reply, some (.unmarshalType other.kindName "[]interface {}"))

/-! ## Client path: `IOCProtocol.Invoke` -/

/-- The struct `IOCProtocol`. -/
structure IOCProtocol where
  address : String
  exportPort : String
  timeout : String
  deriving Repr, Inhabited

/-- What `Invoke` reads of a `dubboProtocol.Invocation`: the attachments, the method name,
the arguments (as the documents they marshal to) and the reply list behind
`Reply().(*[]interface{})`. -/
structure Invocation where
  attachments : List (String × String)
  methodName : String
  arguments : List JSON
  reply : List Slot

/-- The request built by `http.NewRequestWithContext` and completed by the tracer. -/
structure Request where
  url : String
  body : String
  timeout : Int
  header : List (String × String)
  deriving Repr, Inhabited

/-- An HTTP response as `Invoke` uses it: the status code (never read by `Invoke`) and the
bytes `ioutil.ReadAll(rsp.Body)` returns. -/
structure Response where
  status : Nat
  body : String
  deriving Repr, Inhabited

/-- Everything outside the repository that `Invoke` calls.

* `DefaultSchema`: the package constant (declared in a file that is not part of the sources at hand);
* `scan`: the syntax layer of `json.Unmarshal`;
* `marshal`: `json.Marshal` of the argument list (`none` is its error);
* `parseDuration`: `time.ParseDuration`, in nanoseconds;
* `newRequest`: the error of `http.NewRequestWithContext` for a URL, if any;
* `currentSpan`: `GetTraceInterceptor().GetCurrentSpan()`;
* `inject`: the header entries written by `GetGlobalTracer().Inject`;
* `httpDo`: `http.DefaultClient.Do`; as in Go it returns an error only when no
  response was obtained, and a response of any status otherwise. -/
structure Env where
  DefaultSchema : String
  scan : String → Except String JSON
  marshal : List JSON → Option String
  parseDuration : String → Option Int
  newRequest : String → Option GoError
  currentSpan : Option String
  inject : String → List (String × String)
  httpDo : Request → Except GoError Response

/-- Calls leaving `Invoke` that the properties below speak about. -/
inductive Event where
  | httpDo (req : Request)
  | unmarshal (data : String)
  deriving Repr

/-- How a call of `Invoke` ends: `return nil`, `return &RPCResult{Err: err}`, or a
run-time panic. -/
inductive Returned where
  | nil
  | result (err : GoError)
  | panic (msg : String)
  deriving DecidableEq, Repr

/-- Result of running `Invoke`: how it ended, the reply list the caller sees afterwards, and the
calls made. -/
structure Outcome where
  ret : Returned
  reply : List Slot
  trace : List Event

/-- The assignment `(*replyList)[len(*replyList)-1] = x`; `none` is the index-out-of-range
panic on an empty list. -/
def setLast : List Slot → Slot → Option (List Slot)
  | [], _ => none
  | [_], x => some [x]
  | s :: t :: rest, x =>
    match setLast (t :: rest) x with
    | some l => some (s :: l)
    | none => none

/-- The test of lines 80 to 85: the list is not empty and its last element is a `*error`. -/
def finalIsError (replyList : List Slot) : Bool :=
  match replyList.getLast? with
  | some s => s.isErrorPtr
  | none => false

/-- The text of the error built at line 96 with `fmt.Errorf` and three `%s` operands. -/
def decodeErrorText (invokeURL : String) (err : GoError) (rspData : String) : String :=
  "[IOC Protocol] Unmarshal response from " ++ invokeURL ++ " with error " ++ err.Error ++
    ", response data details is " ++ rspData

/-- Lines 77 to 110 of `Invoke`: decoding `rspData` into the reply list. -/
def decodeReply (scan : String → Except String JSON) (invokeURL rspData : String)
    (replyList : List Slot) : Outcome :=
  let isErr := finalIsError replyList
  -- err = json.Unmarshal(rspData, replyList)
  let u1 := Unmarshal scan rspData replyList
  match u1.2 with
  | none => ⟨.nil, u1.1, [.unmarshal rspData]⟩
  | some err1 =>
    if isErr then
      -- finalErrorNotNil = true; (*replyList)[len(*replyList)-1] = ""
      match setLast u1.1 (.iface (.str "")) with
      | none => ⟨.panic "index out of range [-1]", u1.1, [.unmarshal rspData]⟩
      | some l2 =>
        -- err = json.Unmarshal(rspData, replyList)
        let u2 := Unmarshal scan rspData l2
        match u2.2 with
        | some err2 =>
          let text := decodeErrorText invokeURL err2 rspData
          match setLast u2.1 (.errVal text) with
          | none =>
            ⟨.panic "index out of range [-1]", u2.1, [.unmarshal rspData, .unmarshal rspData]⟩
          | some l3 =>
            ⟨.result (.errorString text), l3, [.unmarshal rspData, .unmarshal rspData]⟩
        | none =>
          -- realErr := fmt.Errorf((*replyList)[len(*replyList)-1].(string))
          match u2.1.getLast? with
          | none =>
            ⟨.panic "index out of range [-1]", u2.1, [.unmarshal rspData, .unmarshal rspData]⟩
          | some last =>
            match last.asString with
            | none =>
              ⟨.panic ("interface conversion: interface {} is " ++ last.typeName ++
                  ", not string"), u2.1, [.unmarshal rspData, .unmarshal rspData]⟩
            | some format =>
              match setLast u2.1 (.errPtr (some (Sprintf0 format))) with
              | none =>
                ⟨.panic "index out of range [-1]", u2.1,
                  [.unmarshal rspData, .unmarshal rspData]⟩
              | some l3 => ⟨.nil, l3, [.unmarshal rspData, .unmarshal rspData]⟩
    else ⟨.result err1, u1.1, [.unmarshal rspData]⟩

/-- The URL built at line 47. -/
def invokeURL (env : Env) (i : IOCProtocol) (invocation : Invocation) : String :=
  env.DefaultSchema ++ "://" ++ i.address ++ "/" ++
    (invocation.attachments.lookup "sdid").getD "" ++ "/" ++ invocation.methodName

/-- The request handed to `http.DefaultClient.Do` (lines 46 to 67): the marshalled arguments
as body, the parsed timeout or three seconds, the trace headers when a span is
current. -/
def buildRequest (env : Env) (i : IOCProtocol) (invocation : Invocation) : Request :=
  { url := invokeURL env i invocation
    body := (env.marshal invocation.arguments).getD ""
    timeout := (env.parseDuration i.timeout).getD (3 * 1000000000)
    header :=
      match env.currentSpan with
      | some span => env.inject span
      | none => [] }

/-- Model of `func (i *IOCProtocol) Invoke(invocation) dubboProtocol.Result`. -/
def IOCProtocol.Invoke (env : Env) (i : IOCProtocol) (invocation : Invocation) : Outcome :=
  let url := invokeURL env i invocation
  match env.newRequest url with
  | some err => ⟨.result err, invocation.reply, []⟩
  | none =>
    let req := buildRequest env i invocation
    -- rsp, err := http.DefaultClient.Do(req)
    match env.httpDo req with
    | .error err => ⟨.result err, invocation.reply, [.httpDo req]⟩
    | .ok rsp =>
      let d := decodeReply env.scan url rsp.body invocation.reply
      ⟨d.ret, d.reply, .httpDo req :: d.trace⟩

/-! ## Server path: `getSingletonGinEngion` and `IOCProtocol.Export` -/

/-- The `trace.Context` built by a handler. -/
structure TraceContext where
  SDID : String
  MethodName : String
  ClientSpanContext : String
  deriving DecidableEq, Repr

/-- What a handler does, in order: its calls to the tracer and the invoker and the
response it writes. -/
inductive ServerEvent where
  | abortWithStatusJSON (code : Nat) (msg : String)
  | traceThisGR (ctx : TraceContext)
  | invoke (method : String) (arguments : List JSON)
  | pureJSON (code : Nat) (rsp : JSON)
  | unTrace (ctx : TraceContext)
  deriving Repr

/-- An incoming request as a handler reads it: the result of `ioutil.ReadAll(c.Request.Body)`
and the request headers. -/
structure HttpRequest where
  body : Except String String
  header : List (String × String)

/-- One `httpServer.POST(path, handler)` registration on the engine `engine`. -/
structure Route where
  engine : Nat
  path : String
  handler : HttpRequest → List ServerEvent

/-- Server-side state: the package variable `ginEngionSingleton` (engines are named by
their order of creation), the number of `gin.Default()` calls so far, every
`Run(addr)` started in a goroutine, and every route registered with POST.  Paths are
compared literally: gin's parameter segments (`:name`, `*name`) and the matching
of incoming requests against the route tree are not modelled. -/
structure ServerState where
  ginEngionSingleton : Option Nat
  engines : Nat
  runs : List (Nat × String)
  routes : List Route

/-- State at process start: `var ginEngionSingleton *gin.Engine` is `nil`. -/
def ServerState.init : ServerState :=
  { ginEngionSingleton := none, engines := 0, runs := [], routes := [] }

/-- Model of `func getSingletonGinEngion(exportPort string) *gin.Engine`, run sequentially. -/
def getSingletonGinEngion (exportPort : String) (st : ServerState) : Nat × ServerState :=
  match st.ginEngionSingleton with
  | none =>
    let e := st.engines
    (e, { st with
            ginEngionSingleton := some e
            engines := st.engines + 1
            runs := st.runs ++ [(e, ":" ++ exportPort)] })
  | some e => (e, st)

/-- A method of a registered service: its name and `methodType.ArgsType()`. -/
structure MethodType where
  name : String
  argsType : List String
  deriving DecidableEq, Repr

/-- What `Export` and its handlers read of a `dubboProtocol.Invoker`: the URL parameters and the
result of `Invoke(ctx, invocation).Result()` for a method name and arguments. -/
structure Invoker where
  params : List (String × String)
  invoke : String → List JSON → JSON

/-- Everything outside `iocgo.go` that `Export` and its handlers call.

* `InterfaceKey`, `AliasKey`, `IOCProtocolName`: constants declared elsewhere;
* `GetServiceByServiceKey`: `ServiceMap.GetServiceByServiceKey`; the methods are
  listed in the order in which the `range` loop visits the map `svc.Method()`;
* `ParseArgs`: the package function `ParseArgs(argsType, reqData)`;
* `Extract`: `GetGlobalTracer().Extract` (`none` when it returns an error);
* `ToRPCServiceSDID`: `util.ToRPCServiceSDID`. -/
structure ServerEnv where
  InterfaceKey : String
  AliasKey : String
  IOCProtocolName : String
  GetServiceByServiceKey : String → String → Option (List MethodType)
  ParseArgs : List String → String → Except String (List JSON)
  Extract : List (String × String) → Option String
  ToRPCServiceSDID : String → String

/-- The closure registered at line 126, for the captured `clientStubFullName`, `tempMethod`,
`argsType` and `invoker`. -/
def handler (env : ServerEnv) (invoker : Invoker) (clientStubFullName tempMethod : String)
    (argsType : List String) (c : HttpRequest) : List ServerEvent :=
  match c.body with
  | .error err => [.abortWithStatusJSON 500 err]
  | .ok reqData =>
    match env.ParseArgs argsType reqData with
    | .error err => [.abortWithStatusJSON 500 err]
    | .ok arguments =>
      match env.Extract c.header with
      | some clientContext =>
        let traceCtx : TraceContext :=
          { SDID := env.ToRPCServiceSDID clientStubFullName
            MethodName := tempMethod
            ClientSpanContext := clientContext }
        [.traceThisGR traceCtx, .invoke tempMethod arguments,
          .pureJSON 200 (invoker.invoke tempMethod arguments), .unTrace traceCtx]
      | none =>
        [.invoke tempMethod arguments, .pureJSON 200 (invoker.invoke tempMethod arguments)]

/-- Go's `invoker.GetURL().GetParam(key, "")`. -/
def Invoker.GetParam (invoker : Invoker) (key : String) : String :=
  (invoker.params.lookup key).getD ""

/-- The path `fmt.Sprintf("/%s/%s", clientStubFullName, tempMethod)` of line 126. -/
def routePath (clientStubFullName tempMethod : String) : String :=
  "/" ++ clientStubFullName ++ "/" ++ tempMethod

/-- Whether the engine `httpServer` already has a route registered at `path`. -/
def ServerState.hasRoute (st : ServerState) (httpServer : Nat) (path : String) : Bool :=
  st.routes.any (fun r => decide (r.engine = httpServer) && decide (r.path = path))

/-- The call `httpServer.POST(path, h)`.  gin panics when handlers are already registered for
the path on that engine (`.error` carries the panic message); otherwise the route
is added. -/
def POST (httpServer : Nat) (path : String) (h : HttpRequest → List ServerEvent)
    (st : ServerState) : Except String ServerState :=
  if st.hasRoute httpServer path then
    .error ("handlers are already registered for path '" ++ path ++ "'")
  else
    .ok { st with routes := st.routes ++ [{ engine := httpServer, path := path, handler := h }] }

/-- The body of the `range svc.Method()` loop for one method (lines 124 to 152). -/
def exportMethod (env : ServerEnv) (invoker : Invoker) (httpServer : Nat)
    (clientStubFullName : String) (st : ServerState) (m : MethodType) :
    Except String ServerState :=
  POST httpServer (routePath clientStubFullName m.name)
    (handler env invoker clientStubFullName m.name m.argsType) st

/-- The loop `for methodName, methodType := range svc.Method()` (lines 123 to 153) over the
methods in the order visited: the panic that ended it, if any, and the state reached.
A panic of POST leaves the loop at once; the routes registered before it stay. -/
def exportLoop (env : ServerEnv) (invoker : Invoker) (httpServer : Nat)
    (clientStubFullName : String) : List MethodType → ServerState → Option String × ServerState
  | [], st => (none, st)
  | m :: ms, st =>
    match exportMethod env invoker httpServer clientStubFullName st m with
    | .error msg => (some msg, st)
    | .ok st2 => exportLoop env invoker httpServer clientStubFullName ms st2

/-- How a call of `Export` ends: the panic that left it, if any; the `sdid` of the exporter
returned (`none` for `nil`, and after a panic); the state afterwards. -/
structure Exported where
  panic : Option String
  exporter : Option String
  st : ServerState

/-- Model of `func (i *IOCProtocol) Export(invoker) dubboProtocol.Exporter`. -/
def IOCProtocol.Export (env : ServerEnv) (i : IOCProtocol) (invoker : Invoker)
    (st : ServerState) : Exported :=
  let g := getSingletonGinEngion i.exportPort st
  let httpServer := g.1
  let sdid := invoker.GetParam env.InterfaceKey
  let clientStubFullName := invoker.GetParam env.AliasKey
  match env.GetServiceByServiceKey env.IOCProtocolName sdid with
  | none => { panic := none, exporter := none, st := g.2 }
  | some methods =>
    let l := exportLoop env invoker httpServer clientStubFullName methods g.2
    match l.1 with
    | some msg => { panic := some msg, exporter := none, st := l.2 }
    | none => { panic := none, exporter := some sdid, st := l.2 }

/-! ## Vocabulary of the properties -/

/-- The relation `Decodes j s t`: the JSON value `j` has the type the slot `s` expects, and `t` is the same
slot holding the value of `j`. -/
inductive Decodes : JSON → Slot → Slot → Prop where
  | str (v cur : String) : Decodes (.str v) (.strPtr cur) (.strPtr v)
  | int (lit : String) (n cur : Int) :
      parseInt64 lit = some n → Decodes (.num lit) (.intPtr cur) (.intPtr n)
  | bool (b cur : Bool) : Decodes (.bool b) (.boolPtr cur) (.boolPtr b)
  | anyStr (v : String) (old : JSON) : Decodes (.str v) (.iface old) (.iface (.str v))
  | anyBool (b : Bool) (old : JSON) : Decodes (.bool b) (.iface old) (.iface (.bool b))
  | anyNum (lit : String) (old : JSON) :
      fitsFloat64 lit = true → Decodes (.num lit) (.iface old) (.iface (.num lit))

/-- Position by position: the values `js` match the slots `ss` and `ts` are the slots
holding them. -/
inductive DecodesAll : List JSON → List Slot → List Slot → Prop where
  | nil : DecodesAll [] [] []
  | cons {j : JSON} {s t : Slot} {js : List JSON} {ss ts : List Slot} :
      Decodes j s t → DecodesAll js ss ts → DecodesAll (j :: js) (s :: ss) (t :: ts)

/-- The relation `Contains text part`: `part` occurs in `text`. -/
def Contains (text part : String) : Prop :=
  ∃ before after : String, text = before ++ part ++ after

/-- Events of a handler that are calls to the tracer. -/
def ServerEvent.isTrace : ServerEvent → Bool
  | .traceThisGR _ => true
  | .unTrace _ => true
  | _ => false

/-- The routes registered by one call of `Export`: what it appended to the route table. -/
def exportedRoutes (env : ServerEnv) (i : IOCProtocol) (invoker : Invoker)
    (st : ServerState) : List Route :=
  (i.Export env invoker st).st.routes.drop st.routes.length

/-- A series of sequential `getSingletonGinEngion` calls, one per port of the list: the
engines returned, in order, and the state afterwards. -/
def callAll : List String → ServerState → List Nat × ServerState
  | [], st => ([], st)
  | p :: ps, st =>
    let r := getSingletonGinEngion p st
    let rest := callAll ps r.2
    (r.1 :: rest.1, rest.2)

/-! ## Concrete inputs -/

/-- An environment whose HTTP exchange always succeeds with the given status and body; the
scanner is `scanJSON`, no span is current. -/
def exampleEnv (status : Nat) (body : String) : Env :=
  { DefaultSchema := "http"
    scan := scanJSON
    marshal := fun _ => some "[\"laurence\"]"
    parseDuration := fun _ => none
    newRequest := fun _ => none
    currentSpan := none
    inject := fun _ => []
    httpDo := fun _ => .ok { status := status, body := body } }

/-- The environment `env` with every response status replaced by `f status`: the same server
answering with the same bodies under other status codes. -/
def Env.withStatus (env : Env) (f : Nat → Nat) : Env :=
  { env with
    httpDo := fun req =>
      match env.httpDo req with
      | .ok rsp => .ok { rsp with status := f rsp.status }
      | .error err => .error err }

/-- An environment whose HTTP exchange fails with a connection error. -/
def refusedEnv : Env :=
  { exampleEnv 0 "" with httpDo := fun _ => .error (.transport "connection refused") }

/-- A protocol instance of the `SayHello` scenario. -/
def exampleProtocol : IOCProtocol :=
  { address := "127.0.0.1:8080", exportPort := "8080", timeout := "3s" }

/-- An invocation of `SayHello("laurence")` on service `Hello` with the given reply list. -/
def exampleInvocation (reply : List Slot) : Invocation :=
  { attachments := [("sdid", "Hello")]
    methodName := "SayHello"
    arguments := [.str "laurence"]
    reply := reply }

/-- The reply list with the empty-string placeholder written into its last slot (line 92). -/
def withPlaceholder (l : List Slot) : List Slot :=
  l.dropLast ++ [.iface (.str "")]

/-- The route `Export` registers for the method `m`. -/
def routeOf (env : ServerEnv) (invoker : Invoker) (httpServer : Nat)
    (clientStubFullName : String) (m : MethodType) : Route :=
  { engine := httpServer
    path := routePath clientStubFullName m.name
    handler := handler env invoker clientStubFullName m.name m.argsType }

/-- The service of the `SayHello` scenario: one method taking a string. -/
def exampleMethods : List MethodType :=
  [{ name := "SayHello", argsType := ["string"] }]

/-- A second service: one method `SayBye` taking a string. -/
def byeMethods : List MethodType :=
  [{ name := "SayBye", argsType := ["string"] }]

/-- A server environment that knows the services `Hello` and `Bye`; its `ParseArgs` accepts a
JSON array with one element per declared argument; no trace context is ever
extracted. -/
def exampleServerEnv : ServerEnv :=
  { InterfaceKey := "interface"
    AliasKey := "alias"
    IOCProtocolName := "IOC"
    GetServiceByServiceKey := fun _ sdid =>
      if sdid = "Hello" then some exampleMethods
      else if sdid = "Bye" then some byeMethods
      else none
    ParseArgs := fun argsType reqData =>
      match scanJSON reqData with
      | .ok (.arr js) =>
        if js.length = argsType.length then .ok js else .error "argument count mismatch"
      | .ok _ => .error "request body is not an array"
      | .error msg => .error msg
    Extract := fun _ => none
    ToRPCServiceSDID := fun stub => stub }

/-- An invoker for service `Hello` under the stub name `hello-service`, answering every call
with `("Hello laurence", nil)`. -/
def exampleInvoker : Invoker :=
  { params := [("interface", "Hello"), ("alias", "hello-service")]
    invoke := fun _ _ => .arr [.str "Hello laurence", .null] }

/-- An invoker for service `Bye` under the stub name `bye-service`. -/
def byeInvoker : Invoker :=
  { params := [("interface", "Bye"), ("alias", "bye-service")]
    invoke := fun _ _ => .arr [.str "Bye laurence", .null] }

/-! ## Lemmas on the decoder -/

theorem store_of_decodes {j : JSON} {s t : Slot} (h : Decodes j s t) :
    store j s = (t, none) := by
  cases h with
  | str v cur => rfl
  | int lit n cur hn => simp [store, hn]
  | bool b cur => rfl
  | anyStr v old => rfl
  | anyBool b old => rfl
  | anyNum lit old hf => simp [store, hf]

theorem store_null (s : Slot) : store .null s = (.iface .null, none) := by
  cases s <;> rfl

theorem storeElems_of_decodesAll {vs : List JSON} {earlier decoded : List Slot}
    (h : DecodesAll vs earlier decoded) (last : Slot) :
    storeElems (vs ++ [.null]) (earlier ++ [last]) = (decoded ++ [.iface .null], none) := by
  induction h with
  | nil => simp [storeElems, store_null, firstErr]
  | cons hd _ ih => simp [storeElems, store_of_decodes hd, ih, firstErr]

/-! ## Properties of `Invoke` -/

/-- C1: when the last slot of the reply list is a `*error` and the response body is a JSON
array whose earlier elements have the types of the earlier slots and whose last
element is `null`, `Invoke` returns `nil`, the last slot ends up `nil` (no error),
and every earlier slot holds the value decoded from its position. -/
theorem invoke_null_error_slot (env : Env) (i : IOCProtocol) (invocation : Invocation)
    (rsp : Response) (earlier decoded : List Slot) (cur : Option String) (vs : List JSON)
    (hreply : invocation.reply = earlier ++ [.errPtr cur])
    (hreq : env.newRequest (invokeURL env i invocation) = none)
    (hdo : env.httpDo (buildRequest env i invocation) = .ok rsp)
    (hbody : env.scan rsp.body = .ok (.arr (vs ++ [.null])))
    (hvals : DecodesAll vs earlier decoded) :
    (i.Invoke env invocation).ret = .nil ∧
      (i.Invoke env invocation).reply = decoded ++ [.iface .null] := by
  have hu : Unmarshal env.scan rsp.body invocation.reply = (decoded ++ [.iface .null], none) := by
    simp [Unmarshal, hbody, hreply, storeElems_of_decodesAll hvals]
  simp [IOCProtocol.Invoke, hreq, hdo, decodeReply, hu]

/-- C1, the `SayHello` scenario: body `["Hello laurence", null]` decodes to
`("Hello laurence", nil)`. -/
theorem invoke_null_error_slot_witness :
    (exampleProtocol.Invoke (exampleEnv 200 "[\"Hello laurence\", null]")
        (exampleInvocation [.strPtr "", .errPtr none])).ret = .nil ∧
      (exampleProtocol.Invoke (exampleEnv 200 "[\"Hello laurence\", null]")
        (exampleInvocation [.strPtr "", .errPtr none])).reply
        = [.strPtr "Hello laurence", .iface .null] :=
  invoke_null_error_slot (exampleEnv 200 "[\"Hello laurence\", null]") exampleProtocol
    (exampleInvocation [.strPtr "", .errPtr none])
    { status := 200, body := "[\"Hello laurence\", null]" }
    [.strPtr ""] [.strPtr "Hello laurence"] none [.str "Hello laurence"]
    rfl rfl rfl (by rfl) (.cons (.str "Hello laurence" "") .nil)

/-- C2, at the body `["", "50%"]`: `Invoke` returns `nil` and leaves in the last slot an error
whose message is `50%!(NOVERB)`, not the string `50%` the server sent: the string
is used as the format of `fmt.Errorf`. -/
theorem invoke_percent_string_error :
    (exampleProtocol.Invoke (exampleEnv 200 "[\"\", \"50%\"]")
        (exampleInvocation [.strPtr "", .errPtr none])).ret = .nil ∧
      (exampleProtocol.Invoke (exampleEnv 200 "[\"\", \"50%\"]")
        (exampleInvocation [.strPtr "", .errPtr none])).reply
        = [.strPtr "", .errPtr (some "50%!(NOVERB)")] ∧
      "50%!(NOVERB)" ≠ "50%" :=
  ⟨by rfl, by rfl, by decide⟩

/-- C3 fails: on a response of status 500 with body `["x", null]`, `Invoke` returns `nil` (no
error of any kind), has run the decoder, and has changed the reply list. -/
theorem invoke_status_500_decoded :
    (exampleProtocol.Invoke (exampleEnv 500 "[\"x\", null]")
        (exampleInvocation [.strPtr "", .errPtr none])).ret = .nil ∧
      (exampleProtocol.Invoke (exampleEnv 500 "[\"x\", null]")
        (exampleInvocation [.strPtr "", .errPtr none])).reply
        = [.strPtr "x", .iface .null] ∧
      (exampleProtocol.Invoke (exampleEnv 500 "[\"x\", null]")
        (exampleInvocation [.strPtr "", .errPtr none])).reply
        ≠ (exampleInvocation [.strPtr "", .errPtr none]).reply ∧
      (exampleProtocol.Invoke (exampleEnv 500 "[\"x\", null]")
        (exampleInvocation [.strPtr "", .errPtr none])).trace
        = [.httpDo (buildRequest (exampleEnv 500 "[\"x\", null]") exampleProtocol
            (exampleInvocation [.strPtr "", .errPtr none])), .unmarshal "[\"x\", null]"] := by
  refine ⟨by rfl, by rfl, ?_, by rfl⟩
  have h : (exampleProtocol.Invoke (exampleEnv 500 "[\"x\", null]")
      (exampleInvocation [.strPtr "", .errPtr none])).reply = [.strPtr "x", .iface .null] := by
    rfl
  rw [h]
  simp [exampleInvocation]

/-- C3 as amended: when `http.DefaultClient.Do` itself returns an error, `Invoke` returns a
result carrying exactly that error, never calls the decoder, and leaves the reply
list as it was; the status code of a response plays no part, the same responses
under any other status codes giving the same return value and reply list. -/
theorem invoke_transport_error (env : Env) (i : IOCProtocol) (invocation : Invocation)
    (err : GoError)
    (hreq : env.newRequest (invokeURL env i invocation) = none)
    (hdo : env.httpDo (buildRequest env i invocation) = .error err) :
    (i.Invoke env invocation).ret = .result err ∧
      (i.Invoke env invocation).reply = invocation.reply ∧
      (∀ data, Event.unmarshal data ∉ (i.Invoke env invocation).trace) ∧
      ∀ (env2 : Env) (f : Nat → Nat),
        (i.Invoke (env2.withStatus f) invocation).ret = (i.Invoke env2 invocation).ret ∧
        (i.Invoke (env2.withStatus f) invocation).reply
          = (i.Invoke env2 invocation).reply := by
  refine ⟨?_, ?_, ?_, ?_⟩
  · simp [IOCProtocol.Invoke, hreq, hdo]
  · simp [IOCProtocol.Invoke, hreq, hdo]
  · simp [IOCProtocol.Invoke, hreq, hdo]
  · intro env2 f
    have hb : buildRequest (env2.withStatus f) i invocation = buildRequest env2 i invocation :=
      rfl
    have hu : invokeURL (env2.withStatus f) i invocation = invokeURL env2 i invocation := rfl
    simp only [IOCProtocol.Invoke, hb, hu]
    cases hn : env2.newRequest (invokeURL env2 i invocation) with
    | some e => simp [Env.withStatus, hn]
    | none =>
      cases hd : env2.httpDo (buildRequest env2 i invocation) with
      | error e => simp [Env.withStatus, hn, hd]
      | ok rsp => simp [Env.withStatus, hn, hd]

/-- C3 as amended, on a refused connection. -/
theorem invoke_transport_error_witness :
    (exampleProtocol.Invoke refusedEnv (exampleInvocation [.strPtr "", .errPtr none])).ret
        = .result (.transport "connection refused") ∧
      (exampleProtocol.Invoke refusedEnv (exampleInvocation [.strPtr "", .errPtr none])).reply
        = [.strPtr "", .errPtr none] :=
  let h := invoke_transport_error refusedEnv exampleProtocol
    (exampleInvocation [.strPtr "", .errPtr none]) (.transport "connection refused") rfl rfl
  ⟨h.1, h.2.1⟩

/-- C10, at the body `["", 5]`: the first unmarshal fails, the retry with the placeholder
succeeds, and `Invoke` panics on the type assertion `.(string)`, the last slot
holding a `float64`. -/
theorem invoke_panics_on_number :
    (Unmarshal scanJSON "[\"\", 5]" [.strPtr "", .errPtr none]).2
        = some (.unmarshalType "number" "error") ∧
      (Unmarshal scanJSON "[\"\", 5]" [.strPtr "", .iface (.str "")]).2 = none ∧
      (exampleProtocol.Invoke (exampleEnv 200 "[\"\", 5]")
        (exampleInvocation [.strPtr "", .errPtr none])).ret
        = .panic "interface conversion: interface {} is float64, not string" :=
  ⟨by rfl, by rfl, by rfl⟩

theorem store_errVal {j : JSON} {s : Slot} {t : String} (h : (store j s).1 = .errVal t) :
    s = .errVal t := by
  cases j <;> cases s <;> simp [store] at h ⊢ <;> (try split at h) <;> (try split at h) <;>
    simp_all

theorem store_errPtr_some {j : JSON} {s : Slot} {t : String}
    (h : (store j s).1 = .errPtr (some t)) : s = .errPtr (some t) := by
  cases j <;> cases s <;> simp [store] at h ⊢ <;> (try split at h) <;> (try split at h) <;>
    simp_all

theorem setLast_eq {l : List Slot} (x : Slot) (h : l ≠ []) :
    setLast l x = some (l.dropLast ++ [x]) := by
  induction l with
  | nil => exact absurd rfl h
  | cons a t ih =>
    cases t with
    | nil => rfl
    | cons b r =>
      have := ih (by simp)
      simp [setLast, this]

theorem storeElems_ne_nil {js : List JSON} {ss : List Slot} {e : GoError}
    (h : (storeElems js ss).2 = some e) : (storeElems js ss).1 ≠ [] := by
  cases js with
  | nil => simp [storeElems] at h
  | cons j js => cases ss <;> simp [storeElems]

theorem unmarshal_ne_nil {scan : String → Except String JSON} {data : String}
    {reply : List Slot} {e : GoError} (hne : reply ≠ [])
    (h : (Unmarshal scan data reply).2 = some e) : (Unmarshal scan data reply).1 ≠ [] := by
  unfold Unmarshal at h ⊢
  split at h <;> simp_all
  exact storeElems_ne_nil h

theorem storeElems_errVal {t : String} (js : List JSON) (ss : List Slot)
    (h : Slot.errVal t ∈ (storeElems js ss).1) : Slot.errVal t ∈ ss := by
  induction js generalizing ss with
  | nil => simp [storeElems] at h
  | cons j js ih =>
    cases ss with
    | nil =>
      simp only [storeElems, List.mem_cons] at h
      rcases h with h | h
      · have := store_errVal h.symm
        cases this
      · exact ih [] h
    | cons s ss =>
      simp only [storeElems, List.mem_cons] at h
      rcases h with h | h
      · exact List.mem_cons.mpr (Or.inl (store_errVal h.symm).symm)
      · exact List.mem_cons.mpr (Or.inr (ih ss h))

theorem storeElems_errPtr_some {t : String} (js : List JSON) (ss : List Slot)
    (h : Slot.errPtr (some t) ∈ (storeElems js ss).1) : Slot.errPtr (some t) ∈ ss := by
  induction js generalizing ss with
  | nil => simp [storeElems] at h
  | cons j js ih =>
    cases ss with
    | nil =>
      simp only [storeElems, List.mem_cons] at h
      rcases h with h | h
      · have := store_errPtr_some h.symm
        cases this
      · exact ih [] h
    | cons s ss =>
      simp only [storeElems, List.mem_cons] at h
      rcases h with h | h
      · exact List.mem_cons.mpr (Or.inl (store_errPtr_some h.symm).symm)
      · exact List.mem_cons.mpr (Or.inr (ih ss h))

theorem unmarshal_errVal {scan : String → Except String JSON} {data : String}
    {reply : List Slot} {t : String}
    (h : Slot.errVal t ∈ (Unmarshal scan data reply).1) : Slot.errVal t ∈ reply := by
  unfold Unmarshal at h
  split at h
  · exact h
  · exact storeElems_errVal _ _ h
  · simp at h
  · exact h

theorem unmarshal_errPtr_some {scan : String → Except String JSON} {data : String}
    {reply : List Slot} {t : String}
    (h : Slot.errPtr (some t) ∈ (Unmarshal scan data reply).1) :
    Slot.errPtr (some t) ∈ reply := by
  unfold Unmarshal at h
  split at h
  · exact h
  · exact storeElems_errPtr_some _ _ h
  · simp at h
  · exact h

theorem finalIsError_ne_nil {l : List Slot} (h : finalIsError l = true) : l ≠ [] := by
  intro hl
  subst hl
  simp [finalIsError] at h

theorem withPlaceholder_ne_nil (l : List Slot) : withPlaceholder l ≠ [] := by
  simp [withPlaceholder]

/-- C4: when the reply list is empty or its last slot is not a `*error`, and the unmarshal of the
body fails, `Invoke` calls the decoder once (no retry), returns a result whose
`Err` is exactly that unmarshal error, hands back the list as the single unmarshal
left it, and no slot of it carries an error value that was not there before. -/
theorem invoke_failure_without_error_slot (env : Env) (i : IOCProtocol)
    (invocation : Invocation) (rsp : Response) (err : GoError)
    (hfinal : finalIsError invocation.reply = false)
    (hreq : env.newRequest (invokeURL env i invocation) = none)
    (hdo : env.httpDo (buildRequest env i invocation) = .ok rsp)
    (hfail : (Unmarshal env.scan rsp.body invocation.reply).2 = some err) :
    (i.Invoke env invocation).ret = .result err ∧
      (i.Invoke env invocation).trace
        = [.httpDo (buildRequest env i invocation), .unmarshal rsp.body] ∧
      (i.Invoke env invocation).reply = (Unmarshal env.scan rsp.body invocation.reply).1 ∧
      (∀ t, Slot.errVal t ∈ (i.Invoke env invocation).reply →
        Slot.errVal t ∈ invocation.reply) ∧
      (∀ t, Slot.errPtr (some t) ∈ (i.Invoke env invocation).reply →
        Slot.errPtr (some t) ∈ invocation.reply) := by
  have hr : (i.Invoke env invocation).reply
      = (Unmarshal env.scan rsp.body invocation.reply).1 := by
    simp [IOCProtocol.Invoke, hreq, hdo, decodeReply, hfail, hfinal]
  refine ⟨?_, ?_, hr, ?_, ?_⟩
  · simp [IOCProtocol.Invoke, hreq, hdo, decodeReply, hfail, hfinal]
  · simp [IOCProtocol.Invoke, hreq, hdo, decodeReply, hfail, hfinal]
  · intro t ht
    rw [hr] at ht
    exact unmarshal_errVal ht
  · intro t ht
    rw [hr] at ht
    exact unmarshal_errPtr_some ht

/-- C4, on the reply list `[*int, *string]` and the body `[1, 2]`: the number `2` does not fit
the `*string` slot. -/
theorem invoke_failure_without_error_slot_witness :
    (exampleProtocol.Invoke (exampleEnv 200 "[1, 2]")
        (exampleInvocation [.intPtr 0, .strPtr ""])).ret
        = .result (.unmarshalType "number" "string") ∧
      (exampleProtocol.Invoke (exampleEnv 200 "[1, 2]")
        (exampleInvocation [.intPtr 0, .strPtr ""])).trace
        = [.httpDo (buildRequest (exampleEnv 200 "[1, 2]") exampleProtocol
            (exampleInvocation [.intPtr 0, .strPtr ""])), .unmarshal "[1, 2]"] :=
  let h := invoke_failure_without_error_slot (exampleEnv 200 "[1, 2]") exampleProtocol
    (exampleInvocation [.intPtr 0, .strPtr ""]) { status := 200, body := "[1, 2]" }
    (.unmarshalType "number" "string") rfl rfl rfl (by rfl)
  ⟨h.1, h.2.1⟩

/-- C5: when the last slot of the reply list is a `*error` and both the unmarshal of the body and
the retry with the empty-string placeholder fail, `Invoke` returns a result whose
error message contains the invocation URL, the text of the retry's unmarshal
error and the raw body, and the last slot of the reply list holds that same error. -/
theorem invoke_decode_error (env : Env) (i : IOCProtocol) (invocation : Invocation)
    (rsp : Response) (err1 err2 : GoError)
    (hfinal : finalIsError invocation.reply = true)
    (hreq : env.newRequest (invokeURL env i invocation) = none)
    (hdo : env.httpDo (buildRequest env i invocation) = .ok rsp)
    (hfail1 : (Unmarshal env.scan rsp.body invocation.reply).2 = some err1)
    (hfail2 : (Unmarshal env.scan rsp.body
      (withPlaceholder (Unmarshal env.scan rsp.body invocation.reply).1)).2 = some err2) :
    ∃ text : String,
      (i.Invoke env invocation).ret = .result (.errorString text) ∧
      (i.Invoke env invocation).reply.getLast? = some (.errVal text) ∧
      Contains text
        (env.DefaultSchema ++ "://" ++ i.address ++ "/" ++
          (invocation.attachments.lookup "sdid").getD "" ++ "/" ++ invocation.methodName) ∧
      Contains text err2.Error ∧
      Contains text rsp.body := by
  have hne1 := unmarshal_ne_nil (finalIsError_ne_nil hfinal) hfail1
  have hset1 := setLast_eq (.iface (.str "")) hne1
  have hne2 := unmarshal_ne_nil (withPlaceholder_ne_nil _) hfail2
  refine ⟨decodeErrorText (invokeURL env i invocation) err2 rsp.body, ?_, ?_, ?_, ?_, ?_⟩
  · simp only [IOCProtocol.Invoke, hreq, hdo, decodeReply, hfail1, hfinal, hset1, if_true]
    simp only [withPlaceholder] at hfail2 hne2
    simp [hfail2, setLast_eq _ hne2]
  · simp only [IOCProtocol.Invoke, hreq, hdo, decodeReply, hfail1, hfinal, hset1, if_true]
    simp only [withPlaceholder] at hfail2 hne2
    simp [hfail2, setLast_eq _ hne2]
  · exact ⟨"[IOC Protocol] Unmarshal response from ",
      " with error " ++ err2.Error ++ ", response data details is " ++ rsp.body,
      by simp [decodeErrorText, invokeURL, String.append_assoc]⟩
  · exact ⟨"[IOC Protocol] Unmarshal response from " ++ invokeURL env i invocation ++
        " with error ", ", response data details is " ++ rsp.body,
      by simp [decodeErrorText, String.append_assoc]⟩
  · exact ⟨"[IOC Protocol] Unmarshal response from " ++ invokeURL env i invocation ++
        " with error " ++ err2.Error ++ ", response data details is ", "",
      by simp [decodeErrorText, String.append_assoc]⟩

/-- C5, on the body `"bad args"` (a JSON string, not an array): both attempts fail with the
same type error. -/
theorem invoke_decode_error_witness :
    ∃ text : String,
      (exampleProtocol.Invoke (exampleEnv 500 "\"bad args\"")
        (exampleInvocation [.strPtr "", .errPtr none])).ret = .result (.errorString text) ∧
      (exampleProtocol.Invoke (exampleEnv 500 "\"bad args\"")
        (exampleInvocation [.strPtr "", .errPtr none])).reply.getLast?
        = some (.errVal text) ∧
      Contains text "http://127.0.0.1:8080/Hello/SayHello" ∧
      Contains text "json: cannot unmarshal string into Go value of type []interface {}" ∧
      Contains text "\"bad args\"" :=
  invoke_decode_error (exampleEnv 500 "\"bad args\"") exampleProtocol
    (exampleInvocation [.strPtr "", .errPtr none]) { status := 500, body := "\"bad args\"" }
    (.unmarshalType "string" "[]interface {}") (.unmarshalType "string" "[]interface {}")
    rfl rfl rfl (by rfl) (by rfl)

/-! ## Properties of the server path -/

theorem getSingletonGinEngion_routes (p : String) (st : ServerState) :
    (getSingletonGinEngion p st).2.routes = st.routes := by
  unfold getSingletonGinEngion
  cases st.ginEngionSingleton <;> rfl

theorem getSingletonGinEngion_of_some {p : String} {st : ServerState} {e : Nat}
    (h : st.ginEngionSingleton = some e) : getSingletonGinEngion p st = (e, st) := by
  simp [getSingletonGinEngion, h]

theorem getSingletonGinEngion_singleton (p : String) (st : ServerState) :
    (getSingletonGinEngion p st).2.ginEngionSingleton
      = some (getSingletonGinEngion p st).1 := by
  unfold getSingletonGinEngion
  cases h : st.ginEngionSingleton <;> simp [h]

theorem callAll_of_some {st : ServerState} {e : Nat} (h : st.ginEngionSingleton = some e)
    (ps : List String) : callAll ps st = (List.replicate ps.length e, st) := by
  induction ps with
  | nil => rfl
  | cons p ps ih => simp [callAll, getSingletonGinEngion_of_some h, ih, List.replicate_succ]

theorem callAll_cons (p : String) (ps : List String) (st : ServerState) :
    callAll (p :: ps) st
      = ((getSingletonGinEngion p st).1 :: List.replicate ps.length (getSingletonGinEngion p st).1,
          (getSingletonGinEngion p st).2) := by
  simp [callAll, callAll_of_some (getSingletonGinEngion_singleton p st)]

/-- C6 fails: after a call for port 8080, the first call made for port 8081 returns the engine
created for 8080 and starts nothing; the only `Run` ever started is on `:8080`. -/
theorem singleton_ignores_second_port :
    (callAll ["8080", "8081"] ServerState.init).1 = [0, 0] ∧
      (callAll ["8080", "8081"] ServerState.init).2.runs = [(0, ":8080")] ∧
      (callAll ["8080", "8081"] ServerState.init).2.engines = 1 := by
  decide

/-- C6 as amended: in every series of calls made from process start, the first call constructs
the one engine and starts it on that call's port; every later call, whatever port
it names, returns that same engine and starts nothing. -/
theorem singleton_started_once (p : String) (ps : List String) :
    (callAll (p :: ps) ServerState.init).1 = List.replicate (ps.length + 1) 0 ∧
      (callAll (p :: ps) ServerState.init).2.runs = [(0, ":" ++ p)] ∧
      (callAll (p :: ps) ServerState.init).2.engines = 1 := by
  rw [callAll_cons]
  exact ⟨rfl, rfl, rfl⟩

theorem hasRoute_eq_false {st : ServerState} {e : Nat} {p : String} :
    st.hasRoute e p = false ↔ ∀ r ∈ st.routes, r.engine = e → r.path ≠ p := by
  simp [ServerState.hasRoute]

theorem routePath_inj {stub a b : String} (h : routePath stub a = routePath stub b) :
    a = b := by
  have hd := congrArg String.data h
  simp only [routePath, String.data_append, List.append_assoc] at hd
  have h2 := List.append_cancel_left (List.append_cancel_left (List.append_cancel_left hd))
  exact String.ext h2

theorem exportLoop_routes (env : ServerEnv) (invoker : Invoker) (e : Nat) (stub : String)
    (methods : List MethodType) (st : ServerState) :
    ∃ done rest, methods = done ++ rest ∧
      (exportLoop env invoker e stub methods st).2
        = { st with routes := st.routes ++ done.map (routeOf env invoker e stub) } ∧
      ((exportLoop env invoker e stub methods st).1 = none → rest = []) := by
  induction methods generalizing st with
  | nil => exact ⟨[], [], rfl, by simp [exportLoop], fun _ => rfl⟩
  | cons m ms ih =>
    cases hr : st.hasRoute e (routePath stub m.name) with
    | true =>
      exact ⟨[], m :: ms, rfl, by simp [exportLoop, exportMethod, POST, hr],
        by simp [exportLoop, exportMethod, POST, hr]⟩
    | false =>
      obtain ⟨done, rest, hm, hs, hp⟩ := ih
        { st with routes := st.routes ++ [routeOf env invoker e stub m] }
      refine ⟨m :: done, rest, by simp [hm], ?_, ?_⟩
      · simp only [exportLoop, exportMethod, POST, hr]
        simpa [routeOf] using hs
      · simp only [exportLoop, exportMethod, POST, hr]
        simpa [routeOf] using hp

theorem exportLoop_of_fresh (env : ServerEnv) (invoker : Invoker) (e : Nat) (stub : String)
    (methods : List MethodType) (st : ServerState)
    (hnodup : (methods.map (fun m => routePath stub m.name)).Nodup)
    (hfresh : ∀ r ∈ st.routes, r.engine = e → ∀ m ∈ methods, r.path ≠ routePath stub m.name) :
    exportLoop env invoker e stub methods st
      = (none, { st with routes := st.routes ++ methods.map (routeOf env invoker e stub) }) := by
  induction methods generalizing st with
  | nil => simp [exportLoop]
  | cons m ms ih =>
    have hr : st.hasRoute e (routePath stub m.name) = false :=
      hasRoute_eq_false.mpr (fun r hrm he => hfresh r hrm he m (List.mem_cons_self _ _))
    rw [List.map_cons, List.nodup_cons] at hnodup
    have hrest := ih { st with routes := st.routes ++ [routeOf env invoker e stub m] } hnodup.2
      (by
        intro r hrm he m2 hm2
        simp only [List.mem_append, List.mem_singleton] at hrm
        rcases hrm with h | h
        · exact hfresh r h he m2 (List.mem_cons_of_mem _ hm2)
        · subst h
          intro heq
          exact hnodup.1 (List.mem_map.mpr ⟨m2, hm2, heq.symm⟩))
    simp only [exportLoop, exportMethod, POST, hr]
    simpa [routeOf] using hrest

theorem export_of_service (env : ServerEnv) (i : IOCProtocol) (invoker : Invoker)
    (st : ServerState) (methods : List MethodType)
    (hsvc : env.GetServiceByServiceKey env.IOCProtocolName (invoker.GetParam env.InterfaceKey)
      = some methods) :
    (i.Export env invoker st).panic
        = (exportLoop env invoker (getSingletonGinEngion i.exportPort st).1
            (invoker.GetParam env.AliasKey) methods (getSingletonGinEngion i.exportPort st).2).1 ∧
      (i.Export env invoker st).st
        = (exportLoop env invoker (getSingletonGinEngion i.exportPort st).1
            (invoker.GetParam env.AliasKey) methods (getSingletonGinEngion i.exportPort st).2).2 := by
  simp only [IOCProtocol.Export, hsvc]
  cases (exportLoop env invoker (getSingletonGinEngion i.exportPort st).1
    (invoker.GetParam env.AliasKey) methods (getSingletonGinEngion i.exportPort st).2).1 <;> simp

theorem exportedRoutes_split (env : ServerEnv) (i : IOCProtocol) (invoker : Invoker)
    (st : ServerState) (methods : List MethodType)
    (hsvc : env.GetServiceByServiceKey env.IOCProtocolName (invoker.GetParam env.InterfaceKey)
      = some methods) :
    ∃ done rest, methods = done ++ rest ∧
      exportedRoutes env i invoker st
        = done.map (routeOf env invoker (getSingletonGinEngion i.exportPort st).1
            (invoker.GetParam env.AliasKey)) ∧
      ((i.Export env invoker st).panic = none → rest = []) := by
  obtain ⟨hp, hs⟩ := export_of_service env i invoker st methods hsvc
  obtain ⟨done, rest, hm, hr, hn⟩ := exportLoop_routes env invoker
    (getSingletonGinEngion i.exportPort st).1 (invoker.GetParam env.AliasKey) methods
    (getSingletonGinEngion i.exportPort st).2
  refine ⟨done, rest, hm, ?_, fun h => hn (hp ▸ h)⟩
  simp [exportedRoutes, hs, hr, getSingletonGinEngion_routes]

theorem export_of_fresh (env : ServerEnv) (i : IOCProtocol) (invoker : Invoker)
    (st : ServerState) (methods : List MethodType)
    (hsvc : env.GetServiceByServiceKey env.IOCProtocolName (invoker.GetParam env.InterfaceKey)
      = some methods)
    (hnodup : (methods.map (fun m => routePath (invoker.GetParam env.AliasKey) m.name)).Nodup)
    (hfresh : ∀ r ∈ st.routes, r.engine = (getSingletonGinEngion i.exportPort st).1 →
      ∀ m ∈ methods, r.path ≠ routePath (invoker.GetParam env.AliasKey) m.name) :
    (i.Export env invoker st).panic = none ∧
      (i.Export env invoker st).st
        = { (getSingletonGinEngion i.exportPort st).2 with
            routes := st.routes ++ methods.map (routeOf env invoker
              (getSingletonGinEngion i.exportPort st).1 (invoker.GetParam env.AliasKey)) } := by
  obtain ⟨hp, hs⟩ := export_of_service env i invoker st methods hsvc
  have hl := exportLoop_of_fresh env invoker (getSingletonGinEngion i.exportPort st).1
    (invoker.GetParam env.AliasKey) methods (getSingletonGinEngion i.exportPort st).2 hnodup
    (by rw [getSingletonGinEngion_routes]; exact hfresh)
  rw [hp, hs, hl]
  simp [getSingletonGinEngion_routes]

/-- Exporting the same service twice: the second `Export` panics in gin on the path that is
already registered, and registers nothing. -/
theorem export_twice_panics :
    (exampleProtocol.Export exampleServerEnv exampleInvoker
        (exampleProtocol.Export exampleServerEnv exampleInvoker ServerState.init).st).panic
      = some "handlers are already registered for path '/hello-service/SayHello'" ∧
    (exportedRoutes exampleServerEnv exampleProtocol exampleInvoker
        (exampleProtocol.Export exampleServerEnv exampleInvoker ServerState.init).st).length
      = 0 := by
  constructor <;> rfl

/-- C7: in every series of two or more calls for one port made from process start, every call
returns the engine the first call created and the only `Run` ever started is the
first call's, on that port; when an engine already exists every call returns it
and changes nothing; and two `Export` calls, the first on that port, for services
whose paths are all different, both return normally, start that one `Run` only, and
leave the routes of both exports, in order, registered on that one engine (the
port of the second export is never read, so it may be the same port or any other). -/
theorem same_port_reuses_engine (p : String) (k : Nat) (env : ServerEnv)
    (i1 i2 : IOCProtocol) (invoker1 invoker2 : Invoker) (methods1 methods2 : List MethodType)
    (hp1 : i1.exportPort = p)
    (hsvc1 : env.GetServiceByServiceKey env.IOCProtocolName
      (invoker1.GetParam env.InterfaceKey) = some methods1)
    (hsvc2 : env.GetServiceByServiceKey env.IOCProtocolName
      (invoker2.GetParam env.InterfaceKey) = some methods2)
    (hpaths : (methods1.map (fun m => "/" ++ invoker1.GetParam env.AliasKey ++ "/" ++ m.name) ++
      methods2.map (fun m => "/" ++ invoker2.GetParam env.AliasKey ++ "/" ++ m.name)).Nodup) :
    (callAll (List.replicate (k + 2) p) ServerState.init).1 = List.replicate (k + 2) 0 ∧
      (callAll (List.replicate (k + 2) p) ServerState.init).2.runs = [(0, ":" ++ p)] ∧
      (callAll (List.replicate (k + 2) p) ServerState.init).2.engines = 1 ∧
      (∀ (st : ServerState) (e : Nat), st.ginEngionSingleton = some e →
        callAll (List.replicate (k + 2) p) st = (List.replicate (k + 2) e, st)) ∧
      (∀ st : ServerState, st.ginEngionSingleton = none →
        (callAll (List.replicate (k + 2) p) st).1 = List.replicate (k + 2) st.engines ∧
        (callAll (List.replicate (k + 2) p) st).2.runs = st.runs ++ [(st.engines, ":" ++ p)] ∧
        (callAll (List.replicate (k + 2) p) st).2.engines = st.engines + 1) ∧
      (i1.Export env invoker1 ServerState.init).panic = none ∧
      (i2.Export env invoker2 (i1.Export env invoker1 ServerState.init).st).panic = none ∧
      (i2.Export env invoker2 (i1.Export env invoker1 ServerState.init).st).st.runs
        = [(0, ":" ++ p)] ∧
      (i2.Export env invoker2 (i1.Export env invoker1 ServerState.init).st).st.engines = 1 ∧
      (i2.Export env invoker2 (i1.Export env invoker1 ServerState.init).st).st.routes
        = methods1.map (routeOf env invoker1 0 (invoker1.GetParam env.AliasKey)) ++
          methods2.map (routeOf env invoker2 0 (invoker2.GetParam env.AliasKey)) := by
  have hc : ∀ s : ServerState, callAll (List.replicate (k + 2) p) s
      = (List.replicate (k + 2) (getSingletonGinEngion p s).1,
          (getSingletonGinEngion p s).2) := by
    intro s
    rw [List.replicate_succ, callAll_cons, List.length_replicate, ← List.replicate_succ]
  obtain ⟨hn1, hn2, hdisj⟩ := List.nodup_append.mp hpaths
  -- first export, from process start
  obtain ⟨hpanic1, hst1⟩ := export_of_fresh env i1 invoker1 ServerState.init methods1 hsvc1 hn1
    (by intro r hr; simp [ServerState.init] at hr)
  have hg1 : getSingletonGinEngion i1.exportPort ServerState.init
      = (0, { ginEngionSingleton := some 0, engines := 1, runs := [(0, ":" ++ p)],
              routes := [] }) := by
    rw [hp1]; rfl
  rw [hg1] at hst1
  -- second export: the engine exists
  have hg2 : getSingletonGinEngion i2.exportPort (i1.Export env invoker1 ServerState.init).st
      = (0, (i1.Export env invoker1 ServerState.init).st) :=
    getSingletonGinEngion_of_some (by rw [hst1])
  obtain ⟨hpanic2, hst2⟩ := export_of_fresh env i2 invoker2
    (i1.Export env invoker1 ServerState.init).st methods2 hsvc2 hn2
    (by
      intro r hr _ m hm heq
      rw [hst1] at hr
      simp only [ServerState.init, List.nil_append, List.mem_map] at hr
      obtain ⟨m1, hm1, rfl⟩ := hr
      exact hdisj (List.mem_map.mpr ⟨m1, hm1, rfl⟩) (List.mem_map.mpr ⟨m, hm, heq.symm⟩))
  rw [hg2] at hst2
  refine ⟨by rw [hc]; rfl, by rw [hc]; rfl, by rw [hc]; rfl, ?_, ?_, hpanic1, hpanic2, ?_, ?_, ?_⟩
  · intro st e he
    rw [hc, getSingletonGinEngion_of_some he]
  · intro st hnone
    rw [hc]
    simp [getSingletonGinEngion, hnone]
  · rw [hst2, hst1]
  · rw [hst2, hst1]
  · rw [hst2, hst1]
    simp [ServerState.init]

/-- C7, on port 8080 with the services `Hello` and `Bye`: two calls return engine 0 twice with one
`Run` on `:8080`, and the two exports leave both routes on engine 0. -/
theorem same_port_reuses_engine_witness :
    (callAll ["8080", "8080"] ServerState.init).1 = [0, 0] ∧
      (callAll ["8080", "8080"] ServerState.init).2.runs = [(0, ":8080")] ∧
      (exampleProtocol.Export exampleServerEnv byeInvoker
        (exampleProtocol.Export exampleServerEnv exampleInvoker ServerState.init).st).panic
        = none ∧
      (exampleProtocol.Export exampleServerEnv byeInvoker
        (exampleProtocol.Export exampleServerEnv exampleInvoker ServerState.init).st).st.runs
        = [(0, ":8080")] ∧
      (exampleProtocol.Export exampleServerEnv byeInvoker
        (exampleProtocol.Export exampleServerEnv exampleInvoker ServerState.init).st).st.routes
        = [routeOf exampleServerEnv exampleInvoker 0 "hello-service"
            { name := "SayHello", argsType := ["string"] },
           routeOf exampleServerEnv byeInvoker 0 "bye-service"
            { name := "SayBye", argsType := ["string"] }] :=
  let h := same_port_reuses_engine "8080" 0 exampleServerEnv exampleProtocol exampleProtocol
    exampleInvoker byeInvoker exampleMethods byeMethods rfl rfl rfl (by decide)
  ⟨h.1, h.2.1, h.2.2.2.2.2.2.1, h.2.2.2.2.2.2.2.1, h.2.2.2.2.2.2.2.2.2⟩

/-- C8: the routes registered by `Export` belong, in order, to the methods of the service (to all of
them when `Export` returns normally, to those before the panic otherwise), and on
every request whose body is read but does not parse against that method's
argument types the handler writes status 500 with the error text and does nothing
else: `TraceThisGR` is not called and the invoker is not invoked. -/
theorem handler_parse_failure (env : ServerEnv) (i : IOCProtocol) (invoker : Invoker)
    (st : ServerState) (methods : List MethodType)
    (hsvc : env.GetServiceByServiceKey env.IOCProtocolName (invoker.GetParam env.InterfaceKey)
      = some methods) :
    List.Forall₂
        (fun r m => ∀ (c : HttpRequest) (reqData err : String),
          c.body = .ok reqData → env.ParseArgs m.argsType reqData = .error err →
            r.handler c = [.abortWithStatusJSON 500 err] ∧
            (∀ ctx, ServerEvent.traceThisGR ctx ∉ r.handler c) ∧
            (∀ name arguments, ServerEvent.invoke name arguments ∉ r.handler c))
        (exportedRoutes env i invoker st)
        (methods.take (exportedRoutes env i invoker st).length) ∧
      ((i.Export env invoker st).panic = none →
        List.Forall₂
          (fun r m => ∀ (c : HttpRequest) (reqData err : String),
            c.body = .ok reqData → env.ParseArgs m.argsType reqData = .error err →
              r.handler c = [.abortWithStatusJSON 500 err] ∧
              (∀ ctx, ServerEvent.traceThisGR ctx ∉ r.handler c) ∧
              (∀ name arguments, ServerEvent.invoke name arguments ∉ r.handler c))
          (exportedRoutes env i invoker st) methods) := by
  obtain ⟨done, rest, hm, hr, hn⟩ := exportedRoutes_split env i invoker st methods hsvc
  have key : List.Forall₂
      (fun r m => ∀ (c : HttpRequest) (reqData err : String),
        c.body = .ok reqData → env.ParseArgs m.argsType reqData = .error err →
          r.handler c = [.abortWithStatusJSON 500 err] ∧
          (∀ ctx, ServerEvent.traceThisGR ctx ∉ r.handler c) ∧
          (∀ name arguments, ServerEvent.invoke name arguments ∉ r.handler c))
      (exportedRoutes env i invoker st) done := by
    rw [hr, List.forall₂_map_left_iff, List.forall₂_same]
    intro m _ c reqData err hbody hparse
    simp [routeOf, handler, hbody, hparse]
  refine ⟨?_, ?_⟩
  · have hlen : (exportedRoutes env i invoker st).length = done.length := by simp [hr]
    have ht : methods.take done.length = done := by simp [hm]
    rw [hlen, ht]
    exact key
  · intro hp
    have hd : methods = done := by rw [hm, hn hp, List.append_nil]
    rw [hd]
    exact key

/-- C8, on the `SayHello` route and the request body `{"name"` (truncated JSON). -/
theorem handler_parse_failure_witness :
    (routeOf exampleServerEnv exampleInvoker 0 "hello-service"
        { name := "SayHello", argsType := ["string"] }).handler
        { body := .ok "\x7b\"name\"", header := [] }
      = [.abortWithStatusJSON 500 "invalid JSON input"] :=
  ((List.forall₂_cons.mp
    ((handler_parse_failure exampleServerEnv exampleProtocol exampleInvoker ServerState.init
      exampleMethods rfl).2 rfl)).1
    { body := .ok "\x7b\"name\"", header := [] } "\x7b\"name\"" "invalid JSON input"
    rfl (by rfl)).1

/-- C9: for a service whose method names are distinct (they are the keys of a map) and whose paths
are not yet registered on the engine, `Export` returns normally and has registered
exactly one route per method, in order, after the routes already there, at the path
`"/" + clientStubFullName + "/" + methodName`, on the engine returned by
`getSingletonGinEngion`; on every request whose body is read and parses against
that method's own argument types, the handler, apart from its calls to the tracer,
invokes the invoker with that method's name and the parsed arguments and writes
status 200 with the invocation's result, whatever that result is. -/
theorem export_registers_each_method (env : ServerEnv) (i : IOCProtocol) (invoker : Invoker)
    (st : ServerState) (methods : List MethodType)
    (hsvc : env.GetServiceByServiceKey env.IOCProtocolName (invoker.GetParam env.InterfaceKey)
      = some methods)
    (hnames : (methods.map (fun m => m.name)).Nodup)
    (hfresh : ∀ r ∈ st.routes, r.engine = (getSingletonGinEngion i.exportPort st).1 →
      ∀ m ∈ methods, r.path ≠ "/" ++ invoker.GetParam env.AliasKey ++ "/" ++ m.name) :
    (i.Export env invoker st).panic = none ∧
      (i.Export env invoker st).exporter = some (invoker.GetParam env.InterfaceKey) ∧
      (i.Export env invoker st).st.routes
        = st.routes ++ exportedRoutes env i invoker st ∧
      (exportedRoutes env i invoker st).map (fun r => r.path)
        = methods.map (fun m => "/" ++ invoker.GetParam env.AliasKey ++ "/" ++ m.name) ∧
      List.Forall₂
        (fun r m => r.engine = (getSingletonGinEngion i.exportPort st).1 ∧
          ∀ (c : HttpRequest) (reqData : String) (arguments : List JSON),
            c.body = .ok reqData → env.ParseArgs m.argsType reqData = .ok arguments →
              (r.handler c).filter (fun e => !e.isTrace)
                = [.invoke m.name arguments, .pureJSON 200 (invoker.invoke m.name arguments)])
        (exportedRoutes env i invoker st) methods := by
  have hnodup :
      (methods.map (fun m => routePath (invoker.GetParam env.AliasKey) m.name)).Nodup := by
    have := hnames.map (f := routePath (invoker.GetParam env.AliasKey))
      (fun a b h => routePath_inj h)
    simpa [List.map_map, Function.comp] using this
  obtain ⟨hpanic, hst⟩ := export_of_fresh env i invoker st methods hsvc hnodup hfresh
  have hex : exportedRoutes env i invoker st
      = methods.map (routeOf env invoker (getSingletonGinEngion i.exportPort st).1
          (invoker.GetParam env.AliasKey)) := by
    simp [exportedRoutes, hst]
  have hexp : (i.Export env invoker st).exporter = some (invoker.GetParam env.InterfaceKey) := by
    have hp := (export_of_service env i invoker st methods hsvc).1
    rw [hpanic] at hp
    simp only [IOCProtocol.Export, hsvc, ← hp]
  refine ⟨hpanic, hexp, by rw [hex, hst], by rw [hex]; simp [routeOf, routePath], ?_⟩
  rw [hex, List.forall₂_map_left_iff, List.forall₂_same]
  intro m _
  refine ⟨rfl, ?_⟩
  intro c reqData arguments hbody hparse
  cases hx : env.Extract c.header <;>
    simp [routeOf, handler, hbody, hparse, hx, ServerEvent.isTrace]

/-- C9, on the `SayHello` scenario: the route is `/hello-service/SayHello`, and the request body
`["laurence"]` is answered with status 200 and the invoker's result. -/
theorem export_registers_each_method_witness :
    (exampleProtocol.Export exampleServerEnv exampleInvoker ServerState.init).panic = none ∧
      (exportedRoutes exampleServerEnv exampleProtocol exampleInvoker ServerState.init).map
        (fun r => r.path) = ["/hello-service/SayHello"] ∧
      ((routeOf exampleServerEnv exampleInvoker 0 "hello-service"
          { name := "SayHello", argsType := ["string"] }).handler
          { body := .ok "[\"laurence\"]", header := [] }).filter (fun e => !e.isTrace)
        = [.invoke "SayHello" [.str "laurence"],
            .pureJSON 200 (.arr [.str "Hello laurence", .null])] :=
  let h := export_registers_each_method exampleServerEnv exampleProtocol exampleInvoker
    ServerState.init exampleMethods rfl (by decide)
    (fun r hr => absurd hr (List.not_mem_nil r))
  ⟨h.1, h.2.2.2.1,
    ((List.forall₂_cons.mp h.2.2.2.2).1).2 { body := .ok "[\"laurence\"]", header := [] }
      "[\"laurence\"]" [.str "laurence"] rfl (by rfl)⟩

/-! ## The recovered error value in general -/

/-- A dot that ends the format is the verb itself, as in Go: `fmt.Sprintf("50%.")` is
`50%!.(MISSING)`. -/
theorem sprintf0_trailing_dot : Sprintf0 "50%." = "50%!.(MISSING)" := by
  rfl

theorem doPrintf_of_no_percent (cs : List Char) (fuel : Nat) (hp : '%' ∉ cs)
    (hf : cs.length < fuel) : doPrintf fuel cs = cs := by
  induction cs generalizing fuel with
  | nil => cases fuel <;> rfl
  | cons c cs ih =>
    cases fuel with
    | zero => simp at hf
    | succ fuel =>
      have hc : c ≠ '%' := fun h => hp (by simp [h])
      have hcs : '%' ∉ cs := fun h => hp (List.mem_cons_of_mem _ h)
      simp [doPrintf, hc, ih fuel hcs (by simpa using hf)]

/-- A string without a percent sign is its own formatting: `fmt.Errorf(s)` then carries `s`. -/
theorem sprintf0_of_no_percent (s : String) (hp : '%' ∉ s.data) : Sprintf0 s = s := by
  cases s with
  | mk cs => exact congrArg String.mk (doPrintf_of_no_percent cs _ hp (Nat.lt_succ_self _))

theorem decodes_idem {j : JSON} {s t : Slot} (h : Decodes j s t) : Decodes j t t := by
  cases h with
  | str v cur => exact .str v v
  | int lit n cur hn => exact .int lit n n hn
  | bool b cur => exact .bool b b
  | anyStr v old => exact .anyStr v _
  | anyBool b old => exact .anyBool b _
  | anyNum lit old hf => exact .anyNum lit _ hf

theorem decodesAll_idem {vs : List JSON} {ss ts : List Slot} (h : DecodesAll vs ss ts) :
    DecodesAll vs ts ts := by
  induction h with
  | nil => exact .nil
  | cons hd _ ih => exact .cons (decodes_idem hd) ih

theorem storeElems_append_last {vs : List JSON} {earlier decoded : List Slot}
    (h : DecodesAll vs earlier decoded) (j : JSON) (last : Slot) :
    storeElems (vs ++ [j]) (earlier ++ [last])
      = (decoded ++ [(store j last).1], (store j last).2) := by
  induction h with
  | nil => cases h2 : (store j last).2 <;> simp [storeElems, firstErr, h2]
  | cons hd _ ih => simp [storeElems, store_of_decodes hd, ih, firstErr]

theorem dropLast_append_singleton (l : List Slot) (x : Slot) : (l ++ [x]).dropLast = l := by
  simp

/-- What `Invoke` does on a carried error string in general: when the last slot is a `*error`, the
earlier elements of the body match the earlier slots and the last element is the
JSON string `s`, `Invoke` returns `nil` and the last slot points to an error whose
message is `fmt.Sprintf(s)`, which is `s` itself when `s` has no percent sign. -/
theorem invoke_string_error_slot (env : Env) (i : IOCProtocol) (invocation : Invocation)
    (rsp : Response) (earlier decoded : List Slot) (cur : Option String) (vs : List JSON)
    (s : String)
    (hreply : invocation.reply = earlier ++ [.errPtr cur])
    (hreq : env.newRequest (invokeURL env i invocation) = none)
    (hdo : env.httpDo (buildRequest env i invocation) = .ok rsp)
    (hbody : env.scan rsp.body = .ok (.arr (vs ++ [.str s])))
    (hvals : DecodesAll vs earlier decoded) :
    (i.Invoke env invocation).ret = .nil ∧
      (i.Invoke env invocation).reply = decoded ++ [.errPtr (some (Sprintf0 s))] ∧
      ('%' ∉ s.data → (i.Invoke env invocation).reply = decoded ++ [.errPtr (some s)]) := by
  have hfinal : finalIsError invocation.reply = true := by
    simp [finalIsError, hreply, Slot.isErrorPtr]
  have h1 : ∃ e, Unmarshal env.scan rsp.body invocation.reply
      = (decoded ++ [.errPtr cur], some e) := by
    cases cur <;>
      simp [Unmarshal, hbody, hreply, storeElems_append_last hvals, store, storeErrorString]
  obtain ⟨e, h1⟩ := h1
  have h2 : Unmarshal env.scan rsp.body (decoded ++ [.iface (.str "")])
      = (decoded ++ [.iface (.str s)], none) := by
    simp [Unmarshal, hbody, storeElems_append_last (decodesAll_idem hvals), store, toIface]
  have hset1 : setLast (decoded ++ [Slot.errPtr cur]) (.iface (.str ""))
      = some (decoded ++ [.iface (.str "")]) := by
    rw [setLast_eq _ (by simp), dropLast_append_singleton]
  have hset2 : ∀ x, setLast (decoded ++ [Slot.iface (.str s)]) x = some (decoded ++ [x]) := by
    intro x
    rw [setLast_eq _ (by simp), dropLast_append_singleton]
  have hr : (i.Invoke env invocation).ret = .nil ∧
      (i.Invoke env invocation).reply = decoded ++ [.errPtr (some (Sprintf0 s))] := by
    simp [IOCProtocol.Invoke, hreq, hdo, decodeReply, h1, hfinal, hset1, h2, hset2,
      Slot.asString]
  exact ⟨hr.1, hr.2, fun hp => by rw [hr.2, sprintf0_of_no_percent s hp]⟩

/-- What `Invoke` does when the retry succeeds, in general: when the last slot is a `*error`, the
first unmarshal fails and the retry with the placeholder succeeds, `Invoke` returns
`nil` with the last slot pointing to an error if the retry left a string in the
last slot, and panics otherwise. -/
theorem invoke_retry_outcome (env : Env) (i : IOCProtocol) (invocation : Invocation)
    (rsp : Response) (err1 : GoError) (last : Slot) (front : List Slot)
    (hfinal : finalIsError invocation.reply = true)
    (hreq : env.newRequest (invokeURL env i invocation) = none)
    (hdo : env.httpDo (buildRequest env i invocation) = .ok rsp)
    (hfail1 : (Unmarshal env.scan rsp.body invocation.reply).2 = some err1)
    (hok2 : Unmarshal env.scan rsp.body
      (withPlaceholder (Unmarshal env.scan rsp.body invocation.reply).1)
        = (front ++ [last], none)) :
    (∀ s, last = .iface (.str s) →
        (i.Invoke env invocation).ret = .nil ∧
        (i.Invoke env invocation).reply = front ++ [.errPtr (some (Sprintf0 s))]) ∧
      (last.asString = none →
        (i.Invoke env invocation).ret
          = .panic ("interface conversion: interface {} is " ++ last.typeName ++
              ", not string")) := by
  have hne1 := unmarshal_ne_nil (finalIsError_ne_nil hfinal) hfail1
  have hset1 := setLast_eq (.iface (.str "")) hne1
  simp only [withPlaceholder] at hok2
  have hset2 : ∀ x, setLast (front ++ [last]) x = some (front ++ [x]) := by
    intro x
    rw [setLast_eq _ (by simp), dropLast_append_singleton]
  constructor
  · intro s hs
    subst hs
    simp [IOCProtocol.Invoke, hreq, hdo, decodeReply, hfail1, hfinal, hset1, hok2, hset2,
      Slot.asString]
  · intro hs
    simp [IOCProtocol.Invoke, hreq, hdo, decodeReply, hfail1, hfinal, hset1, hok2, hs]

end IOCGolang
